import Mathlib

/-!
Verification of the Rule-Based Categorization & Staging-to-Fact Load Engine
(monytix-map backend).

The development shallowly embeds the engine's core operations:

* `matchMerchant` / `regexPhase` / `fuzzyMatchMerchant` — the Matcher
  (`backend/app/services/pg_rules_client.py`, `PGRulesClient.match_merchant`
  and `PGRulesClient._fuzzy_match_merchant`);
* `getMerchantRules` — the cached rule fetch
  (`PGRulesClient.get_merchant_rules` plus the module-level TTL cache helpers);
* `merchantPattern`, `descPattern`, `checkRateLimit`, `upsertRule`,
  `learnFromEdit` — the Learning Service
  (`backend/app/services/learning_service.py`);
* `extractAndCategorize`, `loadRows`, `loadStagingForUser` — the
  Staging-to-Fact Loader (`backend/app/routers/etl.py`,
  `load_staging_for_user`).

External effects are made explicit:

* Python's `re.search` is an external library; it is modelled as an oracle
  `RegexFn : String → String → RegexOutcome` (pattern, text ↦ outcome), where
  `.invalid` models `re.error` being raised (an invalid pattern).
* The PostgreSQL store is modelled by explicit state (lists of rows) and by
  `Except` values for fallible round trips; `WriteOutcome` models the store's
  reaction to a row insert (success, unique-constraint violation, other error).
* PostgreSQL `INSERT .. ON CONFLICT` arbiter-index semantics are modelled
  faithfully: two NULLs are distinct for a (default, NULLS DISTINCT) unique
  index, which is expressed by `sqlNullEq`.
* The SHA-1 `pattern_hash` and the database function `fn_txn_fact_fp` are
  deterministic content hashes; they are modelled injectively (the hash of a
  value is the value itself / the tuple of the hashed fields), which preserves
  exactly the property the code relies on: equal input ↔ equal fingerprint.
-/

namespace MonytixMap

/-! ## Rule data model

`MerchantRule` rows (`backend/app/models/spendsense_models.py`) as the rule
dictionaries produced by `PGRulesClient.get_merchant_rules`. -/

/-- `applies_to IN ('merchant','description')` (check constraint on
`merchant_rules`). -/
inductive AppliesTo where
  | merchant
  | description
deriving DecidableEq, Repr

/-- A merchant rule row / rule dictionary.  Field names follow the source
columns.  UUIDs are modelled as `Nat`, timestamps as `Int` (only their order
matters), `priority` as `Int` (SmallInteger). -/
structure MRule where
  ruleId : Nat
  appliesTo : AppliesTo
  patternRegex : String
  patternHash : String
  categoryCode : Option String
  subcategoryCode : Option String
  merchantNameNorm : Option String := none
  source : String
  priority : Int
  active : Bool
  createdBy : Option Nat := none
  tenantId : Option Nat := none
  createdAt : Int
deriving DecidableEq, Repr

/-- Python truthiness of an optional string (`if s:`): `None` and `""` are
falsy. -/
def strTruthy : Option String → Bool
  | none => false
  | some s => s ≠ ""

/-- Python `a or b` on strings (left operand optional): returns `a` when it is
truthy, else `b`. -/
def pyOr (a : Option String) (b : String) : String :=
  match a with
  | none => b
  | some s => if s = "" then b else s

/-! ## Regex oracle

Python's `re` module is external to the repository; `re.search(pattern, text,
re.IGNORECASE)` is modelled as an oracle returning one of three outcomes.
`.invalid` models `re.error` being raised while compiling/applying the
pattern. -/

/-- Outcome of `re.search(pattern, text, re.IGNORECASE)`. -/
inductive RegexOutcome where
  | matched
  | noMatch
  | invalid
deriving DecidableEq, Repr

/-- The `re.search` oracle: pattern → text → outcome. -/
def RegexFn : Type := String → String → RegexOutcome

/-! ## Matcher: regex phase

`PGRulesClient.match_merchant` walks the (already priority-sorted) rule list;
for each rule with a non-empty pattern it applies the pattern to the merchant
name (when `applies_to='merchant'` and the merchant is truthy) or to the
description (when `applies_to='description'` and the description is truthy),
returning the first rule whose pattern matches.  `re.error` (invalid pattern)
is caught and the rule skipped. -/

/-- One rule's regex attempt inside the matching loop.  Mirrors the body of
the `for rule in rules:` loop of `match_merchant`: an empty pattern is
skipped (`if not pattern: continue`), and `re.search` runs only when the
corresponding text is truthy. -/
def ruleRegexAttempt (ro : RegexFn) (merchant desc : Option String) (r : MRule) :
    RegexOutcome :=
  if r.patternRegex = "" then .noMatch
  else
    match r.appliesTo with
    | .merchant =>
        if strTruthy merchant then ro r.patternRegex (merchant.getD "") else .noMatch
    | .description =>
        if strTruthy desc then ro r.patternRegex (desc.getD "") else .noMatch

/-- The regex phase of `match_merchant`: first rule whose attempt matches;
`.invalid` outcomes behave exactly like `.noMatch` (the `except re.error:
continue` handler). -/
def regexPhase (ro : RegexFn) (merchant desc : Option String) (rules : List MRule) :
    Option MRule :=
  rules.find? (fun r => ruleRegexAttempt ro merchant desc r == .matched)

/-- A rule "regex-matches" the given input when its loop attempt succeeds. -/
def ruleMatches (ro : RegexFn) (merchant desc : Option String) (r : MRule) : Prop :=
  ruleRegexAttempt ro merchant desc r = .matched

instance (ro : RegexFn) (m d : Option String) (r : MRule) :
    Decidable (ruleMatches ro m d r) := by
  unfold ruleMatches; infer_instance

/-! ## Matcher: fuzzy fallback

`PGRulesClient._fuzzy_match_merchant` uses `difflib.SequenceMatcher(None, a,
b).ratio()`.  For strings of fewer than 200 characters (no autojunk), the
ratio is `2*M/(len a + len b)` where `M` sums the sizes of the matching
blocks found by Ratcliff–Obershelp: take the longest common block (earliest
in `a`, then earliest in `b`, among the longest) and recurse on the pieces
to its left and to its right.  The recursion is written with fuel
`len a + len b + 1`, which can never run out on the recursion's strictly
shrinking inputs. -/

/-- Length of the longest common prefix of two character lists. -/
def commonLen : List Char → List Char → Nat
  | a :: as, b :: bs => if a = b then commonLen as bs + 1 else 0
  | _, _ => 0

/-- `SequenceMatcher.find_longest_match` (no junk): the triple `(i, j, k)`
with maximal `k` such that `a[i:i+k] == b[j:j+k]`, preferring the smallest
`i`, then the smallest `j`. -/
def bestFrom (a b : List Char) : Nat × Nat × Nat :=
  (List.range (a.length)).foldl
    (fun acc i =>
      (List.range (b.length)).foldl
        (fun acc j =>
          let k := commonLen (a.drop i) (b.drop j)
          if acc.2.2 < k then (i, j, k) else acc)
        acc)
    (0, 0, 0)

/-- Total size of the Ratcliff–Obershelp matching blocks (the `matches`
argument of difflib's `_calculate_ratio`), with fuel. -/
def matchSumF : Nat → List Char → List Char → Nat
  | 0, _, _ => 0
  | fuel + 1, a, b =>
    let t := bestFrom a b
    if t.2.2 = 0 then 0
    else
      matchSumF fuel (a.take t.1) (b.take t.2.1) + t.2.2 +
        matchSumF fuel (a.drop (t.1 + t.2.2)) (b.drop (t.2.1 + t.2.2))

/-- Total matching-block size of two character lists. -/
def matchSum (a b : List Char) : Nat := matchSumF (a.length + b.length + 1) a b

/-- A non-negative similarity score as an explicit fraction `num / den`.
Python computes these scores as floats; they are modelled as exact
fractions, compared numerically by cross multiplication (`scoreLt`,
`scoreLe`, `scoreEquiv`).  Every score the code produces has a positive
denominator. -/
structure Score where
  num : Nat
  den : Nat
deriving DecidableEq, Repr

/-- Numeric `<` on scores: `a.num / a.den < b.num / b.den` by cross
multiplication. -/
def scoreLt (a b : Score) : Prop := a.num * b.den < b.num * a.den

instance : DecidableRel scoreLt := fun a b => Nat.decLt (a.num * b.den) (b.num * a.den)

/-- Numeric `≤` on scores. -/
def scoreLe (a b : Score) : Prop := a.num * b.den ≤ b.num * a.den

instance : DecidableRel scoreLe := fun a b => Nat.decLe (a.num * b.den) (b.num * a.den)

/-- Numeric equality of scores. -/
def scoreEquiv (a b : Score) : Prop := a.num * b.den = b.num * a.den

instance (a b : Score) : Decidable (scoreEquiv a b) := Nat.decEq _ _

/-- Fraction multiplication (`word_overlap * 0.9`). -/
def scoreMul (a b : Score) : Score := ⟨a.num * b.num, a.den * b.den⟩

/-- Python `max(a, b)` numerically: the larger value, `a` on ties. -/
def scoreMax (a b : Score) : Score := if scoreLt a b then b else a

/-- `SequenceMatcher(None, a, b).ratio()`: `2*M / (len a + len b)`, and `1`
for two empty strings (difflib's `_calculate_ratio`). -/
def seqSim (a b : String) : Score :=
  if a.data.length + b.data.length = 0 then ⟨1, 1⟩
  else ⟨2 * matchSum a.data b.data, a.data.length + b.data.length⟩

/-- `s.strip()` on the underlying characters: drop leading and trailing
whitespace. -/
def pyStripChars (l : List Char) : List Char :=
  ((l.dropWhile Char.isWhitespace).reverse.dropWhile Char.isWhitespace).reverse

/-- Python `str.strip()`. -/
def pyStrip (s : String) : String := String.mk (pyStripChars s.data)

/-- Python `str.upper()` (ASCII). -/
def pyUpper (s : String) : String := String.mk (s.data.map Char.toUpper)

/-- Python `str.lower()` (ASCII). -/
def pyLower (s : String) : String := String.mk (s.data.map Char.toLower)

/-- Whitespace tokenizer: accumulate the current (reversed) word, emitting
it at every whitespace run and at the end. -/
def splitWsAux : List Char → List Char → List String
  | [], acc => if acc.isEmpty then [] else [String.mk acc.reverse]
  | c :: rest, acc =>
      if c.isWhitespace then
        if acc.isEmpty then splitWsAux rest []
        else String.mk acc.reverse :: splitWsAux rest []
      else splitWsAux rest (c :: acc)

/-- Python `str.split()` with no arguments: split on whitespace runs,
dropping empty pieces. -/
def pyWords (s : String) : List String := splitWsAux s.data []

/-- `len(pattern_words & merchant_words) / len(pattern_words |
merchant_words)`: Jaccard overlap of the two word sets. -/
def wordOverlap (pw mw : List String) : Score :=
  let pws := pw.dedup
  let mws := mw.dedup
  let interCard := (pws.filter (fun w => w ∈ mws)).length
  let unionCard := (pws ++ mws.filter (fun w => w ∉ pws)).length
  ⟨interCard, unionCard⟩

/-- `re.sub(r'^\(\?i\)', '', s, flags=re.IGNORECASE)`: drop a leading
literal `(?i)` (the `i` case-insensitively). -/
def stripCaseFlag : List Char → List Char
  | '(' :: '?' :: c :: ')' :: rest =>
      if c = 'i' ∨ c = 'I' then rest else '(' :: '?' :: c :: ')' :: rest
  | l => l

/-- Remove every (non-overlapping, left-to-right) occurrence of the
two-character sequence `c₁c₂` — models `re.sub` with a two-character literal
pattern such as `\\b` or `\.\*`. -/
def removePair (c₁ c₂ : Char) : List Char → List Char
  | [] => []
  | [c] => [c]
  | a :: b :: rest =>
      if a = c₁ ∧ b = c₂ then removePair c₁ c₂ rest
      else a :: removePair c₁ c₂ (b :: rest)

/-- The character class `[.*+?^${}()|[\]\\]` removed by
`_fuzzy_match_merchant`'s last substitution. -/
def regexSpecials : List Char :=
  ['.', '*', '+', '?', '^', '$', '{', '}', '(', ')', '|', '[', ']', '\\']

/-- Pattern-text extraction of `_fuzzy_match_merchant`: strip a leading
`(?i)`, remove `\b` and `.*`, strip remaining regex metacharacters, then
uppercase and trim. -/
def cleanPattern (patternRegex : String) : String :=
  let t := stripCaseFlag patternRegex.data
  let t := removePair '\\' 'b' t
  let t := removePair '.' '*' t
  let t := t.filter (fun c => ¬ (c ∈ regexSpecials))
  pyStrip (pyUpper (String.mk t))

/-- `merchant_upper = merchant_name.upper().strip()`. -/
def merchantUpperOf (merchantName : String) : String :=
  pyStrip (pyUpper merchantName)

/-- The similarity score one loop iteration of `_fuzzy_match_merchant`
assigns to a rule, or `none` when the rule is skipped (not merchant-scoped,
empty pattern, or cleaned pattern text shorter than 3 characters).  The
score is the sequence ratio, boosted to `word_overlap * 0.9` when both word
sets are non-empty and the boost is larger. -/
def fuzzyScore (merchantUpper : String) (r : MRule) : Option Score :=
  if r.appliesTo ≠ .merchant then none
  else if r.patternRegex = "" then none
  else
    let pt := cleanPattern r.patternRegex
    if pt = "" ∨ pt.length < 3 then none
    else
      let sim := seqSim merchantUpper pt
      let pw := pyWords pt
      let mw := pyWords merchantUpper
      some (if pw ≠ [] ∧ mw ≠ [] then scoreMax sim (scoreMul (wordOverlap pw mw) ⟨9, 10⟩) else sim)

/-- The accumulator loop of `_fuzzy_match_merchant`: running best score
(initially the `0.75` threshold) and best rule; a rule replaces the best
only when its score is strictly greater. -/
def fuzzyLoop (merchantUpper : String) :
    List MRule → Score → Option MRule → Option MRule
  | [], _, best => best
  | r :: rs, bestScore, best =>
    match fuzzyScore merchantUpper r with
    | none => fuzzyLoop merchantUpper rs bestScore best
    | some s =>
        if scoreLt bestScore s then fuzzyLoop merchantUpper rs s (some r)
        else fuzzyLoop merchantUpper rs bestScore best

/-- `PGRulesClient._fuzzy_match_merchant`. -/
def fuzzyMatchMerchant (merchantName : String) (rules : List MRule) : Option MRule :=
  fuzzyLoop (merchantUpperOf merchantName) rules ⟨3, 4⟩ none

/-- `PGRulesClient.match_merchant` on an already-fetched rule list: the
regex phase, then — when no regex rule matched and the merchant name is
truthy — the fuzzy fallback. -/
def matchMerchant (ro : RegexFn) (merchantName desc : Option String)
    (rules : List MRule) : Option MRule :=
  match regexPhase ro merchantName desc rules with
  | some r => some r
  | none =>
      if strTruthy merchantName then fuzzyMatchMerchant (merchantName.getD "") rules
      else none

/-! ## Rule store ordering and TTL cache

`PGRulesClient.get_merchant_rules`: rules are fetched with
`ORDER BY priority ASC, created_at DESC`, filtered to `active` rows visible
to the tenant (global `NULL`-tenant rules plus the tenant's own), and cached
under a per-tenant key with a 600-second TTL.  The backing store is modelled
as an `Except` value; the source has no exception handler around the fetch,
so a store error propagates. -/

/-- The SQL ordering `priority ASC, created_at DESC` as a relation: lower
priority number first; among equal priorities, the more recently created
rule first. -/
def ruleLe (a b : MRule) : Prop :=
  a.priority < b.priority ∨ (a.priority = b.priority ∧ b.createdAt ≤ a.createdAt)

instance : DecidableRel ruleLe := by
  unfold ruleLe; infer_instance

instance : IsTotal MRule ruleLe :=
  ⟨fun a b => by
    unfold ruleLe
    rcases lt_trichotomy a.priority b.priority with h | h | h
    · exact Or.inl (Or.inl h)
    · rcases le_total b.createdAt a.createdAt with hc | hc
      · exact Or.inl (Or.inr ⟨h, hc⟩)
      · exact Or.inr (Or.inr ⟨h.symm, hc⟩)
    · exact Or.inr (Or.inl h)⟩

instance : IsTrans MRule ruleLe :=
  ⟨fun a b c hab hbc => by
    unfold ruleLe at *
    rcases hab with h₁ | ⟨h₁, h₁'⟩ <;> rcases hbc with h₂ | ⟨h₂, h₂'⟩
    · exact Or.inl (h₁.trans h₂)
    · exact Or.inl (h₂ ▸ h₁)
    · exact Or.inl (h₁ ▸ h₂)
    · exact Or.inr ⟨h₁.trans h₂, h₂'.trans h₁'⟩⟩

/-- The SQL `ORDER BY priority ASC, created_at DESC` modelled as a sort by
`ruleLe`. -/
def sortRules (l : List MRule) : List MRule := List.insertionSort ruleLe l

/-- Errors of the backing store round trip. -/
inductive StoreErr where
  | unavailable
deriving DecidableEq, Repr

/-- A cache entry as written by `_set_cache`: the cached rule list with its
expiry instant. -/
structure CacheEntry where
  data : List MRule
  expiresAt : Int
  cachedAt : Int
deriving DecidableEq, Repr

/-- `_cache_ttl_seconds = 600`. -/
def cacheTtlSeconds : Int := 600

/-- `_is_cache_valid`: an entry exists and `utcnow() < expires_at`. -/
def isCacheValid (cache : Option CacheEntry) (now : Int) : Bool :=
  match cache with
  | none => false
  | some e => now < e.expiresAt

/-- Tenant visibility filter of `get_merchant_rules`: with a tenant, global
(`NULL`-tenant) rules plus that tenant's rules; without one, only global
rules. -/
def tenantVisible (tenant : Option Nat) (r : MRule) : Bool :=
  match tenant with
  | some t => r.tenantId == some t || r.tenantId == none
  | none => r.tenantId == none

/-- The store round trip of `get_merchant_rules` (the session query): the
active, tenant-visible rules ordered by `(priority ASC, created_at DESC)`,
or the store's error. -/
def fetchMerchantRules (tenant : Option Nat)
    (store : Except StoreErr (List MRule)) : Except StoreErr (List MRule) :=
  match store with
  | .error e => .error e
  | .ok table => .ok (sortRules (table.filter (fun r => r.active && tenantVisible tenant r)))

/-- `PGRulesClient.get_merchant_rules` over explicit cache state: when
`use_cache` holds and the entry for the scope is still valid, the cached
rules are returned without touching the store; otherwise the store is
queried (its failure propagating — the source has no handler) and, on
success with `use_cache`, the cache entry is rewritten with a fresh TTL.
Returns the rules together with the resulting cache state. -/
def getMerchantRules (tenant : Option Nat) (useCache : Bool)
    (cache : Option CacheEntry) (now : Int)
    (store : Except StoreErr (List MRule)) :
    Except StoreErr (List MRule × Option CacheEntry) :=
  if useCache && isCacheValid cache now then
    .ok ((cache.map (·.data)).getD [], cache)
  else
    match fetchMerchantRules tenant store with
    | .error e => .error e
    | .ok result =>
        .ok (result, if useCache then some ⟨result, now + cacheTtlSeconds, now⟩ else cache)

/-! ## Learning Service

`backend/app/services/learning_service.py`: pattern synthesis
(`merchant_pattern`, `desc_pattern`), the per-user daily rate limit
(`_check_rate_limit`), the `ON CONFLICT` upsert (`upsert_rule`) and
`learn_from_edit`. -/

/-- `USER_RULE_PRIORITY = 10`. -/
def USER_RULE_PRIORITY : Int := 10

/-- `DESC_RULE_PRIORITY = 12`. -/
def DESC_RULE_PRIORITY : Int := 12

/-- `STOPWORDS` of `learning_service.py` (lowercase, as in the source). -/
def STOPWORDS : List String :=
  ["upi", "imps", "neft", "rtgs", "txn", "transaction", "ref", "utr", "rrn",
   "payment", "card", "bill", "dr", "cr", "debit", "credit"]

/-- `MIN_MERCHANT_LENGTH = 3`. -/
def MIN_MERCHANT_LENGTH : Nat := 3

/-- `MIN_PATTERN_TOKENS = 2`. -/
def MIN_PATTERN_TOKENS : Nat := 2

/-- `MAX_RULES_PER_USER_PER_DAY = 50`. -/
def MAX_RULES_PER_USER_PER_DAY : Nat := 50

/-- `_pattern_hash`: SHA-1 of the pattern text.  The hash is modelled as the
pattern text itself — a deterministic injective stand-in that preserves the
only property the code relies on (equal pattern ↔ equal hash). -/
def patternHash (pattern : String) : String := pattern

/-- `re.sub(r'[^A-Za-z0-9]+', ' ', s).split()`: alphanumeric tokens of a
string (runs of non-alphanumeric characters act as separators). -/
def tokenizeAlnum (s : String) : List String :=
  pyWords (String.mk (s.data.map (fun c => if c.isAlphanum then c else ' ')))

/-- `merchant_pattern`: word-boundary-anchored, case-insensitive pattern
from the merchant's alphanumeric tokens joined with `.*`.  `re.escape` is
the identity on the purely alphanumeric tokens produced here.  Returns
`none` for names shorter than `MIN_MERCHANT_LENGTH` after stripping or with
no tokens. -/
def merchantPattern (name : String) : Option String :=
  if (pyStrip name).length < MIN_MERCHANT_LENGTH then none
  else
    let tokens := tokenizeAlnum (pyStrip name)
    if tokens = [] then none
    else some ("(?i)\\b" ++ String.intercalate ".*" tokens ++ "\\b")

/-- `desc_pattern`: pattern from the first three description tokens of
length ≥ 2 that are not stopwords (the tokens are uppercased first, and the
stopword set is lowercase, exactly as in the source).  Returns `none` when
fewer than `MIN_PATTERN_TOKENS` tokens survive. -/
def descPattern (description : String) : Option String :=
  if description = "" then none
  else
    let tokens := tokenizeAlnum (pyUpper description)
    let tokens := tokens.filter (fun t => t ∉ STOPWORDS ∧ 2 ≤ t.length)
    if tokens.length < MIN_PATTERN_TOKENS then none
    else some ("(?i).*" ++ String.intercalate ".*" (tokens.take 3) ++ ".*")

/-- `_check_rate_limit`: under the limit when the count of the actor's
learned rules created today (the session query, here an `Except` for the
fallible round trip) is below `MAX_RULES_PER_USER_PER_DAY`; on a query
error the check returns `True` ("Allow on error (fail open)"). -/
def checkRateLimit (countToday : Except StoreErr Nat) : Bool :=
  match countToday with
  | .ok n => n < MAX_RULES_PER_USER_PER_DAY
  | .error _ => true

/-- SQL equality of two nullable columns as used by a (default,
`NULLS DISTINCT`) unique-index arbiter: `NULL` never equals `NULL`, so rows
whose `tenant_id` is `NULL` never conflict with each other. -/
def sqlNullEq (a b : Option Nat) : Bool :=
  match a, b with
  | some x, some y => x == y
  | _, _ => false

/-- `upsert_rule`: `INSERT .. ON CONFLICT (tenant_id, applies_to,
pattern_hash) DO UPDATE .. RETURNING rule_id`.  A conflicting row (per the
arbiter's SQL equality, `sqlNullEq` on `tenant_id`) has its category,
subcategory, priority, active flag, creator and source overwritten and its
`rule_id` returned; otherwise a fresh row is inserted (`newRuleId` models
`uuid4()`, `now` the `created_at` server default).  Note the source inserts
`tenant_id=tenant_id` — the zero-UUID sentinel it computes for NULL tenants
is unused. -/
def upsertRule (table : List MRule) (appliesTo : AppliesTo) (patternRegex : String)
    (categoryCode subcategoryCode : Option String) (priority : Int)
    (createdBy : Nat) (tenantId : Option Nat) (source : String)
    (newRuleId : Nat) (now : Int) : List MRule × Nat :=
  let hash := patternHash patternRegex
  match table.find? (fun r =>
      sqlNullEq r.tenantId tenantId && r.appliesTo == appliesTo && r.patternHash == hash) with
  | some existing =>
      (table.map (fun r =>
        if r.ruleId == existing.ruleId then
          { r with categoryCode := categoryCode, subcategoryCode := subcategoryCode,
                   priority := priority, active := true, createdBy := some createdBy,
                   source := source }
        else r),
       existing.ruleId)
  | none =>
      (table ++ [{ ruleId := newRuleId, appliesTo := appliesTo,
                   patternRegex := patternRegex, patternHash := hash,
                   categoryCode := categoryCode, subcategoryCode := subcategoryCode,
                   source := source, priority := priority, active := true,
                   createdBy := some createdBy, tenantId := tenantId,
                   createdAt := now }],
       newRuleId)

/-- A `dim_category` row (the columns the engine reads or writes). -/
structure DimCategory where
  code : String
  name : String
  txnType : String
  displayOrder : Int := 100
  active : Bool
deriving DecidableEq, Repr

/-- A `dim_subcategory` row: each subcategory references exactly one
category. -/
structure DimSubcategory where
  code : String
  categoryCode : String
  active : Bool
deriving DecidableEq, Repr

/-- The parent category of a subcategory code in the reference dimension. -/
def subcatParent (subcats : List DimSubcategory) (code : String) : Option String :=
  (subcats.find? (fun s => s.code == code)).map (·.categoryCode)

/-- The relational state the Learning Service reads and writes. -/
structure LearnStore where
  rules : List MRule
  cats : List DimCategory
  subcats : List DimSubcategory
deriving DecidableEq, Repr

/-- The subcategory `learn_from_edit` actually stores: the given
`subcategory_code` survives only when an active `dim_subcategory` row with
that code *and* the given category exists (the source's `subcategory`
lookup followed by `subcategory_code if subcategory else None`). -/
def storedSubcatFor (store : LearnStore) (categoryCode subcategoryCode : Option String) :
    Option String :=
  let subcategory :=
    if strTruthy subcategoryCode then
      store.subcats.find? (fun s =>
        s.code == subcategoryCode.getD "" &&
        s.categoryCode == categoryCode.getD "" && s.active)
    else none
  if subcategory.isSome then subcategoryCode else none

/-- `learn_from_edit`: returns the created/updated rule id (or `none`) and
the resulting store.  Control flow follows the source: no category code →
`none`; rate limit not passed → `none`; unknown/inactive category → `none`;
the subcategory is kept only when an active `dim_subcategory` row with that
code *and* the given category exists; a truthy merchant name with a
synthesizable pattern yields a merchant-scoped upsert at priority 10,
otherwise a truthy description with a synthesizable pattern yields a
description-scoped upsert at priority 12; else `none`.  The surrounding
`except` handler makes the operation total (it never raises to the
caller). -/
def learnFromEdit (store : LearnStore) (countToday : Except StoreErr Nat)
    (userId : Nat) (merchantName description : Option String)
    (categoryCode subcategoryCode : Option String) (tenantId : Option Nat)
    (newRuleId : Nat) (now : Int) : Option Nat × LearnStore :=
  if ¬ strTruthy categoryCode then (none, store)
  else if ¬ checkRateLimit countToday then (none, store)
  else
    match store.cats.find? (fun c => c.code == categoryCode.getD "" && c.active) with
    | none => (none, store)
    | some _ =>
        let storedSubcat := storedSubcatFor store categoryCode subcategoryCode
        let descBranch : Option Nat × LearnStore :=
          if strTruthy description then
            match descPattern (description.getD "") with
            | some p =>
                let res := upsertRule store.rules .description p categoryCode storedSubcat
                  DESC_RULE_PRIORITY userId tenantId "learned" newRuleId now
                (some res.2, { store with rules := res.1 })
            | none => (none, store)
          else (none, store)
        if strTruthy merchantName then
          match merchantPattern (merchantName.getD "") with
          | some p =>
              let res := upsertRule store.rules .merchant p categoryCode storedSubcat
                USER_RULE_PRIORITY userId tenantId "learned" newRuleId now
              (some res.2, { store with rules := res.1 })
          | none => descBranch
        else descBranch

/-! ## Staging-to-Fact Loader

`load_staging_for_user` (`backend/app/routers/etl.py`): for each staged,
parsed row of the user — extract/normalize the merchant and categorize
(`_extract_and_categorize`), compute the content fingerprint
(`fn_txn_fact_fp`), skip rows whose fingerprint already exists, and insert
fact + enrichment inside a per-row savepoint.  A duplicate/unique-constraint
violation of a row's writes rolls back only that savepoint and processing
continues; any other row error is re-raised, and the outer handler rolls the
whole session back (the single `session.commit()` sits after the loop), so
nothing of the batch persists. -/

/-- A `txn_staging` row (the columns the Loader reads).  Dates, amounts and
ids are modelled as integers; only equality of the fingerprinted fields
matters. -/
structure StagingRow where
  userId : Nat
  uploadId : Nat
  rawTxnId : Option String := none
  txnDate : Int
  amount : Int
  direction : String
  descriptionRaw : Option String
  merchantRaw : Option String
  currency : Option String := none
  accountRef : Option String := none
  parsedOk : Bool
deriving DecidableEq, Repr

/-- Modelled from the spec: the database function `fn_txn_fact_fp` (created
by a migration that is not under `src/`; only its call site in
`load_staging_for_user` is) is per the spec a deterministic hash over
`(user_id, date, amount, direction, description, normalized_merchant,
account_reference)`.  It is modelled injectively as the tuple of those
fields, preserving exactly the determinism the code relies on. -/
structure FP where
  userId : Nat
  txnDate : Int
  amount : Int
  direction : String
  description : String
  merchantNorm : String
  acctRef : String
deriving DecidableEq, Repr

/-- The fingerprint the Loader computes for a staging row (`SELECT
spendsense.fn_txn_fact_fp(:u, :d, :a, :dir, :desc, :m, :acct)` with
`description_raw or ""`, the normalized merchant `or ""`, `account_ref or
""`). -/
def mkFP (s : StagingRow) (merchantNorm : String) : FP :=
  ⟨s.userId, s.txnDate, s.amount, s.direction,
   pyOr s.descriptionRaw "", merchantNorm, pyOr s.accountRef ""⟩

/-- The credit-fallback exclusion list used by `is_personal_name`. -/
def CREDIT_BUSINESS_EXCLUDE : List String :=
  ["enterprises", "services", "solutions", "technologies", "private", "limited",
   "hotel", "hotels", "resort", "lodge", "industries", "trading", "traders",
   "store", "shop", "pvt", "ltd", "inc", "corp", "corporation"]

/-- The credit-fallback `common_names` list. -/
def CREDIT_COMMON_NAMES : List String :=
  ["abhinav", "shobha", "vasantha", "vasanthakumari", "yashwanth", "yashwant",
   "sriram", "kumari", "kiran", "uday", "navalga", "jatavath", "shaik", "zuber",
   "mohammad", "mohammed", "sameer", "shakeel", "arifa", "begum", "gurajala",
   "josaf", "pathlavath", "ramesh", "pittala", "yadagiri", "ippalui",
   "krishnaiah", "sandeep", "venkata", "hanuman", "naseer", "malla", "satya",
   "srinivasa", "ravi", "sri", "sai", "teja", "industr"]

/-- The credit-fallback `company_keywords` list. -/
def CREDIT_COMPANY_KEYWORDS : List String :=
  ["technologies", "technology", "private", "limited", "pvt", "ltd", "inc",
   "corporation", "corp", "industries", "clearing", "nse", "bse", "nsec"]

/-- The credit-fallback `business_keywords` list. -/
def CREDIT_BUSINESS_KEYWORDS : List String :=
  ["enterprises", "services", "solutions", "traders", "store", "shop"]

/-- Python `needle in hay` on strings: substring containment. -/
def listContainsSub (needle : List Char) : List Char → Bool
  | [] => needle.isEmpty
  | c :: rest => needle.isPrefixOf (c :: rest) || listContainsSub needle rest

/-- Substring containment, `needle in hay`. -/
def strContains (hay needle : String) : Bool := listContainsSub needle.data hay.data

/-- `s.lower()` (ASCII). -/
def toLowerStr (s : String) : String := pyLower s

/-- The credit branch's `is_personal_name`: 2–4 words and no business-ish
keyword occurs in the text. -/
def isPersonalNameCredit (searchText : String) : Bool :=
  let ws := pyWords searchText
  2 ≤ ws.length && ws.length ≤ 4 &&
    !(CREDIT_BUSINESS_EXCLUDE.any (fun w => strContains searchText w))

/-- `_extract_and_categorize` of `load_staging_for_user`: returns
`(merchant_name_norm, category_code, subcategory_code)`.  The merchant
extractor and normalizer (`app/services/merchant_extractor.py`, themselves
thin layers over `re`) and the debit-only keyword classifier
`_infer_category_from_keywords` (which returns a bare category code, never a
subcategory — see line 456 of `etl.py`) enter as oracle parameters; the rule
step and the asymmetric credit fallback are embedded concretely. -/
def extractAndCategorize (ro : RegexFn)
    (extractMerchantFromDescription : String → Option String)
    (normalizeMerchantName : String → String)
    (inferCategoryFromKeywords : String → String)
    (rules : List MRule)
    (description : String) (merchantRaw : Option String) (direction : String) :
    String × String × Option String :=
  let merchantName : Option String :=
    match merchantRaw with
    | none => extractMerchantFromDescription description
    | some m =>
        if m = "" || toLowerStr m ∈ (["unknown", "nan", ""] : List String) then
          extractMerchantFromDescription description
        else some m
  let merchantNormalized := normalizeMerchantName (pyOr merchantName (pyOr (some description) ""))
  let ruleMatch := matchMerchant ro
    (if merchantNormalized = "" then none else some merchantNormalized)
    (if description = "" then none else some description) rules
  let fromRule : Option (String × String × Option String) :=
    match ruleMatch with
    | some r =>
        match r.categoryCode with
        | some c =>
            if c ≠ "" then some (pyOr r.merchantNameNorm merchantNormalized, c, r.subcategoryCode)
            else none
        | none => none
    | none => none
  match fromRule with
  | some out => out
  | none =>
      if direction = "credit" then
        let searchText := toLowerStr (pyOr (some merchantNormalized) (pyOr (some description) ""))
        if isPersonalNameCredit searchText ||
            CREDIT_COMMON_NAMES.any (fun n => strContains searchText n) then
          (merchantNormalized, "transfers", some "p2p_transfer")
        else
          let merchantLower := toLowerStr merchantNormalized
          if CREDIT_COMPANY_KEYWORDS.any (fun k => strContains merchantLower k) then
            (merchantNormalized, "income", some "salary")
          else if CREDIT_BUSINESS_KEYWORDS.any (fun k => strContains merchantLower k) then
            (merchantNormalized, "transfers", some "p2p_personal")
          else
            (merchantNormalized, "transfers", some "p2p_personal")
      else
        let searchText := toLowerStr (pyOr (some merchantNormalized) (pyOr (some description) ""))
        (merchantNormalized, inferCategoryFromKeywords searchText, none)

/-- The `txn_type_map` of `ensure_category`. -/
def txnTypeMap : List (String × String) :=
  [("dining", "wants"), ("groceries", "needs"), ("shopping", "wants"),
   ("utilities", "needs"), ("auto_taxi", "needs"), ("flight", "wants"),
   ("train", "needs"), ("travel", "wants"), ("rent", "needs"),
   ("investments", "assets"), ("income", "income"), ("savings", "assets"),
   ("others", "wants")]

/-- `txn_type_map.get(cat_code, 'wants')`. -/
def txnTypeFor (catCode : String) : String :=
  ((txnTypeMap.find? (fun p => p.1 == catCode)).map (·.2)).getD "wants"

/-- `'_' → ' '` as in `cat_code.replace('_', ' ')`. -/
def underscoreToSpace (s : String) : String :=
  String.mk (s.data.map (fun c => if c = '_' then ' ' else c))

/-- Python `str.title()`: capitalize the first letter of each alphabetic
run, lowercase the rest. -/
def pyTitleAux : Bool → List Char → List Char
  | _, [] => []
  | prevAlpha, c :: rest =>
      (if c.isAlpha then (if prevAlpha then c.toLower else c.toUpper) else c)
        :: pyTitleAux c.isAlpha rest

/-- Python `str.title()`. -/
def pyTitle (s : String) : String := String.mk (pyTitleAux false s.data)

/-- `ensure_category`: add a `dim_category` row with a derived display name
and `txn_type` bucket when the code is truthy and missing. -/
def ensureCategory (catCode : String) (cats : List DimCategory) : List DimCategory :=
  if catCode = "" then cats
  else if (cats.find? (fun c => c.code == catCode)).isSome then cats
  else cats ++ [⟨catCode, pyTitle (underscoreToSpace catCode), txnTypeFor catCode, 100, true⟩]

/-- A `txn_enriched` row written by the Loader (`matched_rule_id` is not set
on this path). -/
structure EnrichRec where
  categoryCode : String
  subcategoryCode : Option String
  ruleConfidence : Score
  matchedRuleId : Option Nat := none
deriving DecidableEq, Repr

/-- The fact-store state the Loader reads and writes: the fingerprints of
existing facts (`txn_fact.dedupe_fp`), the enrichment rows, and the
`dim_category` reference rows. -/
structure LoadState where
  fps : List FP
  enriched : List EnrichRec
  cats : List DimCategory
deriving DecidableEq, Repr

/-- The store's reaction to one row's writes inside the savepoint: success,
a duplicate/unique-constraint violation (`IntegrityError` or an error text
mentioning `unique`/`duplicate`/`dedupe_fp`), or any other error. -/
inductive WriteOutcome where
  | ok
  | dupViolation
  | otherError
deriving DecidableEq, Repr

/-- The batch-level error surfaced when a row fails with a non-duplicate
error (the `raise` at the end of the loop's handler). -/
inductive LoadErr where
  | rowError
deriving DecidableEq, Repr

instance {ε α : Type} [DecidableEq ε] [DecidableEq α] :
    DecidableEq (Except ε α) := fun x y =>
  match x, y with
  | .ok a, .ok b =>
      if h : a = b then isTrue (by rw [h]) else isFalse (by simp [h])
  | .error e, .error f =>
      if h : e = f then isTrue (by rw [h]) else isFalse (by simp [h])
  | .ok _, .error _ => isFalse (by simp)
  | .error _, .ok _ => isFalse (by simp)

/-- The per-row loop of `load_staging_for_user`.  `env` is the store's
per-fingerprint write outcome (deterministic per fingerprint, modelling the
unique constraint as the arbiter); `categorize` is `_extract_and_categorize`
applied to the row.  A row whose fingerprint already exists is skipped; a
successful insert appends the fact fingerprint, the enrichment row
(`rule_confidence = 1.0` with a truthy subcategory else `0.80`) and the
ensured category, and counts; a duplicate violation rolls back just the row
(state unchanged) and continues; any other error aborts the batch — and the
outer `session.rollback()` discards the batch's prior inserts, which the
`Except.error` result models (the caller keeps the initial state). -/
def loadRows (env : FP → WriteOutcome)
    (categorize : StagingRow → String × String × Option String) :
    List StagingRow → LoadState → Nat → Except LoadErr (Nat × LoadState)
  | [], st, inserted => .ok (inserted, st)
  | s :: rest, st, inserted =>
    let c := categorize s
    let fp := mkFP s c.1
    if fp ∈ st.fps then loadRows env categorize rest st inserted
    else
      match env fp with
      | .ok =>
          let cat := if c.2.1 = "" then "others" else c.2.1
          let st' : LoadState :=
            { fps := fp :: st.fps
              enriched := ⟨cat, c.2.2, if strTruthy c.2.2 then ⟨1, 1⟩ else ⟨4, 5⟩, none⟩ :: st.enriched
              cats := ensureCategory cat st.cats }
          loadRows env categorize rest st' (inserted + 1)
      | .dupViolation => loadRows env categorize rest st inserted
      | .otherError => .error .rowError

/-- `load_staging_for_user`: the user's parsed staging rows are pulled and
run through the per-row loop; on success the inserted count is returned
(cache clearing, KPI refresh and materialized-view refresh afterwards are
best-effort and cannot change the result). -/
def loadStagingForUser (ro : RegexFn)
    (extractMerchantFromDescription : String → Option String)
    (normalizeMerchantName : String → String)
    (inferCategoryFromKeywords : String → String)
    (rules : List MRule) (env : FP → WriteOutcome)
    (staging : List StagingRow) (userId : Nat) (st : LoadState) :
    Except LoadErr (Nat × LoadState) :=
  let rows := staging.filter (fun s => s.userId == userId && s.parsedOk)
  let categorize := fun (s : StagingRow) =>
    extractAndCategorize ro extractMerchantFromDescription normalizeMerchantName
      inferCategoryFromKeywords rules (pyOr s.descriptionRaw "") s.merchantRaw s.direction
  loadRows env categorize rows st 0

/-! ## Concrete data for witnesses and counterexamples -/

/-- Builder for concrete rule rows (active, `seed` provenance, hash of the
pattern per `patternHash`). -/
def mkRule (id : Nat) (ap : AppliesTo) (pat : String) (cat sub : Option String)
    (prio : Int) (created : Int) : MRule :=
  { ruleId := id, appliesTo := ap, patternRegex := pat, patternHash := pat,
    categoryCode := cat, subcategoryCode := sub, source := "seed",
    priority := prio, active := true, createdAt := created }

/-- A regex oracle under which no pattern matches any text. -/
def roNone : RegexFn := fun _ _ => .noMatch

/-- A regex oracle under which every pattern matches every text. -/
def roAll : RegexFn := fun _ _ => .matched

/-- A trivial merchant extractor (no merchant found in any description). -/
def extractNone : String → Option String := fun _ => none

/-- The identity merchant normalizer. -/
def normalizeId : String → String := fun s => s

/-- A keyword classifier mapping every text to `shopping` (the source's own
default fallback). -/
def inferShopping : String → String := fun _ => "shopping"

/-- A parsed staging row used by the loader witnesses. -/
def rowCafe : StagingRow :=
  { userId := 1, uploadId := 1, txnDate := 0, amount := 5, direction := "debit",
    descriptionRaw := some "COFFEE", merchantRaw := some "CAFE", parsedOk := true }

/-- A second parsed staging row (distinct fingerprint from `rowCafe`). -/
def rowTea : StagingRow :=
  { userId := 1, uploadId := 1, txnDate := 0, amount := 7, direction := "debit",
    descriptionRaw := some "TEA", merchantRaw := some "CHAI", parsedOk := true }

/-- A parsed staging row whose merchant a mismatched rule will match. -/
def rowShell : StagingRow :=
  { userId := 1, uploadId := 1, txnDate := 0, amount := 9, direction := "debit",
    descriptionRaw := some "FUEL", merchantRaw := some "SHELL", parsedOk := true }

/-- A rule carrying a (category, subcategory) pair whose subcategory belongs
to a different category in the reference dimension. -/
def badRule : MRule := mkRule 9 .merchant "SHELL" (some "shopping") (some "fuel_petrol") 10 0

/-- Reference dimension placing `fuel_petrol` under `transport`. -/
def dimsFuel : List DimSubcategory := [⟨"fuel_petrol", "transport", true⟩]

/-- The empty fact-store state. -/
def st0 : LoadState := ⟨[], [], []⟩

/-- The fact-store state after loading `rowCafe` into `st0` (no rule
matches; the debit keyword fallback yields `shopping` with no
subcategory). -/
def stCafe : LoadState :=
  { fps := [⟨1, 0, 5, "debit", "COFFEE", "CAFE", ""⟩]
    enriched := [⟨"shopping", none, ⟨4, 5⟩, none⟩]
    cats := [⟨"shopping", "Shopping", "wants", 100, true⟩] }

/-- The fact-store state after loading `rowShell` into `st0` with `badRule`
matching: the rule's mismatched pair is copied into the enrichment. -/
def stShell : LoadState :=
  { fps := [⟨1, 0, 9, "debit", "FUEL", "SHELL", ""⟩]
    enriched := [⟨"shopping", some "fuel_petrol", ⟨1, 1⟩, none⟩]
    cats := [⟨"shopping", "Shopping", "wants", 100, true⟩] }

/-- A merchant rule whose cleaned pattern text `ABCDEF` has sequence
similarity exactly `0.80` to the merchant `ABCD`. -/
def rule80 : MRule := mkRule 1 .merchant "ABCDEF" (some "shopping") none 10 0

/-- A merchant rule whose cleaned pattern text `ABCDEFGHIJKLM` has sequence
similarity exactly `0.70` to the merchant `ABCDEFG`. -/
def rule70 : MRule := mkRule 2 .merchant "ABCDEFGHIJKLM" (some "shopping") none 10 0

/-- A priority-10 merchant rule for the ordering witness. -/
def ruleP10 : MRule := mkRule 3 .merchant "AAA" (some "groceries") none 10 0

/-- A priority-20 merchant rule for the ordering witness. -/
def ruleP20 : MRule := mkRule 4 .merchant "BBB" (some "shopping") none 20 0

/-- A regex oracle under which exactly the pattern `[` is invalid and every
other pattern matches. -/
def roInv : RegexFn := fun p _ => if p = "[" then .invalid else .matched

/-- A rule whose pattern `[` is an invalid regex (under `roInv`). -/
def badRegexRule : MRule := mkRule 5 .merchant "[" (some "bills") none 1 0

/-- A learning-store state with one active category and one subcategory
belonging to it. -/
def learnStoreSample : LearnStore :=
  { rules := []
    cats := [⟨"shopping", "Shopping", "wants", 100, true⟩]
    subcats := [⟨"online_shopping", "shopping", true⟩] }

/-- The rule `learn_from_edit` creates for the correction
`("Shobha Ent" → shopping / online_shopping)` against `learnStoreSample`. -/
def learnedShobhaRule : MRule :=
  { ruleId := 42, appliesTo := .merchant, patternRegex := "(?i)\\bShobha.*Ent\\b",
    patternHash := "(?i)\\bShobha.*Ent\\b", categoryCode := some "shopping",
    subcategoryCode := some "online_shopping", merchantNameNorm := none,
    source := "learned", priority := 10, active := true, createdBy := some 7,
    tenantId := none, createdAt := 5 }

/-! # Theorems -/

/-- Splitting view of a successful `List.find?`: the list decomposes around
the found element, everything before it failing the predicate. -/
theorem find?_split {α : Type} {p : α → Bool} :
    ∀ {l : List α} {r : α}, l.find? p = some r →
      ∃ l₁ l₂, l = l₁ ++ r :: l₂ ∧ (∀ x ∈ l₁, p x = false) ∧ p r = true := by
  intro l
  induction l with
  | nil => intro r h; simp at h
  | cons a as ih =>
    intro r h
    by_cases hp : p a
    · rw [List.find?_cons_of_pos _ hp] at h
      obtain rfl : a = r := by injection h
      exact ⟨[], as, rfl, by simp, hp⟩
    · rw [List.find?_cons_of_neg _ (by simpa using hp)] at h
      obtain ⟨l₁, l₂, hsp, hfalse, hr⟩ := ih h
      refine ⟨a :: l₁, l₂, by rw [hsp]; rfl, ?_, hr⟩
      intro x hx
      rcases List.mem_cons.mp hx with rfl | hx
      · simpa using hp
      · exact hfalse x hx

/-- **C6** (amended): the cache is consulted only while the entry is valid
(unexpired): a valid entry is returned without contacting the store, so a
store outage is invisible then; but once the entry has expired, a
backing-store failure propagates to the caller — `get_merchant_rules` has no
handler and never falls back to a stale entry. -/
theorem get_rules_cache_behavior (tenant : Option Nat) (cache : Option CacheEntry)
    (now : Int) (store : Except StoreErr (List MRule)) :
    (∀ e, cache = some e → isCacheValid cache now = true →
      getMerchantRules tenant true cache now store = .ok (e.data, cache)) ∧
    (∀ err, isCacheValid cache now = false → store = .error err →
      getMerchantRules tenant true cache now store = .error err) := by
  constructor
  · intro e he hv
    subst he
    simp [getMerchantRules, hv]
  · intro err hv hs
    subst hs
    simp [getMerchantRules, hv, fetchMerchantRules]

/-- Witness for `get_rules_cache_behavior`: a still-valid entry is served
despite a store outage; with no (valid) entry the outage propagates. -/
theorem get_rules_cache_behavior_witness :
    getMerchantRules none true (some ⟨[rule80], 20, 0⟩) 10 (.error .unavailable)
      = .ok ([rule80], some ⟨[rule80], 20, 0⟩) ∧
    getMerchantRules none true none 10 (.error .unavailable) = .error .unavailable :=
  ⟨(get_rules_cache_behavior none (some ⟨[rule80], 20, 0⟩) 10 (.error .unavailable)).1
      ⟨[rule80], 20, 0⟩ rfl (by decide),
   (get_rules_cache_behavior none none 10 (.error .unavailable)).2 .unavailable (by decide) rfl⟩

/-- **C6** counterexample: a stale (expired) cache entry for the scope
exists and the backing store is unavailable — the call propagates the error
instead of returning the stale cached rules. -/
theorem get_rules_stale_cache_not_returned :
    getMerchantRules none true (some ⟨[rule80], 5, 0⟩) 10 (.error .unavailable)
      = .error .unavailable ∧
    ∀ c', getMerchantRules none true (some ⟨[rule80], 5, 0⟩) 10 (.error .unavailable)
      ≠ .ok ([rule80], c') := by
  refine ⟨by rfl, ?_⟩
  intro c' h
  rw [show getMerchantRules none true (some ⟨[rule80], 5, 0⟩) 10
      (Except.error .unavailable) = .error .unavailable from rfl] at h
  exact Except.noConfusion h

/-- **C7** (confirmed): an actor at or over the daily learned-rule limit
gets `none` from `learn_from_edit` and the store is untouched; the function
is total (the rate-limit refusal raises nothing to the caller). -/
theorem learn_rate_limit_fails_closed (store : LearnStore) (n : Nat)
    (hn : MAX_RULES_PER_USER_PER_DAY ≤ n) (userId : Nat)
    (merchantName description categoryCode subcategoryCode : Option String)
    (tenantId : Option Nat) (newRuleId : Nat) (now : Int) :
    learnFromEdit store (.ok n) userId merchantName description categoryCode
      subcategoryCode tenantId newRuleId now = (none, store) := by
  have hlim : checkRateLimit (.ok n) = false := by
    simp [checkRateLimit]
    omega
  unfold learnFromEdit
  rw [hlim]
  by_cases hc : strTruthy categoryCode <;> simp [hc]

/-- Witness for `learn_rate_limit_fails_closed`: with 50 rules already
created today, even a fully learnable edit yields no rule and no change. -/
theorem learn_rate_limit_fails_closed_witness :
    MAX_RULES_PER_USER_PER_DAY ≤ 50 ∧
    learnFromEdit learnStoreSample (.ok 50) 7 (some "Amazon Pay") none
      (some "shopping") (some "online_shopping") none 99 0 = (none, learnStoreSample) :=
  ⟨by decide,
   learn_rate_limit_fails_closed learnStoreSample 50 (by decide) 7 (some "Amazon Pay")
     none (some "shopping") (some "online_shopping") none 99 0⟩

/-- **C10** (confirmed): when the rate-limit count query fails, the check
reports under-limit (`True`, "Allow on error"), and learning proceeds: with
an existing active category and a synthesizable merchant pattern a rule is
still created/updated. -/
theorem rate_limit_check_fails_open (e : StoreErr) (store : LearnStore) (userId : Nat)
    (m c : String) (d sc : Option String) (tid : Option Nat) (rid : Nat) (now : Int)
    (hc : c ≠ "") (hm : m ≠ "")
    (dc : DimCategory)
    (hcat : store.cats.find? (fun x => x.code == c && x.active) = some dc)
    (p : String) (hp : merchantPattern m = some p) :
    checkRateLimit (.error e) = true ∧
    (learnFromEdit store (.error e) userId (some m) d (some c) sc tid rid now).1.isSome
      = true := by
  refine ⟨rfl, ?_⟩
  unfold learnFromEdit
  have h1 : strTruthy (some c) = true := by simpa [strTruthy] using hc
  have h2 : strTruthy (some m) = true := by simpa [strTruthy] using hm
  simp only [h1, checkRateLimit, Option.getD_some, hcat, h2, not_true_eq_false,
    Bool.not_eq_true, if_false, ite_false]
  simp only [hp]
  simp

/-- Witness for `rate_limit_check_fails_open`: a failing count query still
lets a rule be created. -/
theorem rate_limit_check_fails_open_witness :
    checkRateLimit (.error .unavailable) = true ∧
    (learnFromEdit learnStoreSample (.error .unavailable) 7 (some "Amazon Pay") none
      (some "shopping") none none 99 0).1.isSome = true :=
  rate_limit_check_fails_open .unavailable learnStoreSample 7 "Amazon Pay" "shopping"
    none none none 99 0 (by decide) (by decide)
    ⟨"shopping", "Shopping", "wants", 100, true⟩ (by decide)
    "(?i)\\bAmazon.*Pay\\b" (by decide)

/-- **C3** (code bug): two identical global-scope (`NULL`-tenant) upserts
insert two active rules for the same `(scope, applies_to,
pattern_fingerprint)` tuple — the `ON CONFLICT` arbiter never fires when
`tenant_id` is `NULL` (`sqlNullEq`), and the zero-UUID sentinel the source
computes for exactly this purpose is never used — while the same two calls
under a concrete tenant update in place, leaving a single rule. -/
theorem upsert_rule_global_scope_duplicates :
    (upsertRule (upsertRule [] .merchant "(?i)\\bACME\\b" (some "shopping") none
        USER_RULE_PRIORITY 7 none "learned" 1 0).1 .merchant "(?i)\\bACME\\b"
        (some "shopping") none USER_RULE_PRIORITY 7 none "learned" 2 1).1.length = 2 ∧
    (∀ r ∈ (upsertRule (upsertRule [] .merchant "(?i)\\bACME\\b" (some "shopping") none
        USER_RULE_PRIORITY 7 none "learned" 1 0).1 .merchant "(?i)\\bACME\\b"
        (some "shopping") none USER_RULE_PRIORITY 7 none "learned" 2 1).1,
      r.active = true ∧ r.tenantId = none ∧ r.appliesTo = .merchant ∧
        r.patternHash = patternHash "(?i)\\bACME\\b") ∧
    (upsertRule (upsertRule [] .merchant "(?i)\\bACME\\b" (some "shopping") none
        USER_RULE_PRIORITY 7 (some 5) "learned" 1 0).1 .merchant "(?i)\\bACME\\b"
        (some "shopping") none USER_RULE_PRIORITY 7 (some 5) "learned" 2 1).1.length
      = 1 := by
  decide

/-- **C4** (confirmed): the store hands the Matcher rules ordered by
`(priority ASC, created_at DESC)` (`sortRules` output is `ruleLe`-sorted),
and on such a list the first regex match is returned immediately: whenever
two active rules both regex-match the input, the rule returned regex-matches
and beats every matching rule — strictly lower priority number, or equal
priority and a creation time no older. -/
theorem matcher_priority_order :
    (∀ table : List MRule, List.Sorted ruleLe (sortRules table)) ∧
    ∀ (ro : RegexFn) (m d : Option String) (rs : List MRule),
      List.Sorted ruleLe rs →
      ∀ r₁ r₂, r₁ ∈ rs → r₂ ∈ rs → r₁.active = true → r₂.active = true →
        ruleMatches ro m d r₁ → ruleMatches ro m d r₂ →
        ∃ r, regexPhase ro m d rs = some r ∧ matchMerchant ro m d rs = some r ∧
          ruleMatches ro m d r ∧
          ∀ r' ∈ rs, ruleMatches ro m d r' →
            r.priority < r'.priority ∨
              (r.priority = r'.priority ∧ r'.createdAt ≤ r.createdAt) := by
  constructor
  · intro table
    exact List.sorted_insertionSort ruleLe table
  · intro ro m d rs hs r₁ r₂ h₁ h₂ _ _ hm₁ _
    have hfind : (rs.find? (fun r => ruleRegexAttempt ro m d r == .matched)).isSome := by
      rw [List.find?_isSome]
      exact ⟨r₁, h₁, by simpa [ruleMatches] using hm₁⟩
    obtain ⟨r, hr⟩ := Option.isSome_iff_exists.mp hfind
    obtain ⟨l₁, l₂, hsplit, hfail, hpr⟩ := find?_split hr
    refine ⟨r, hr, ?_, by simpa [ruleMatches] using hpr, ?_⟩
    · unfold matchMerchant regexPhase
      rw [hr]
    · intro r' hr' hm'
      have hnotl₁ : r' ∉ l₁ := by
        intro hmem
        have hx := hfail r' hmem
        rw [ruleMatches] at hm'
        simp [hm'] at hx
      subst hsplit
      rcases List.mem_append.mp hr' with hL | hR
      · exact absurd hL hnotl₁
      · rcases List.mem_cons.mp hR with rfl | hl₂
        · exact Or.inr ⟨rfl, le_refl _⟩
        · have h2 := (List.pairwise_append.mp hs).2.1
          have hle : ruleLe r r' := (List.pairwise_cons.mp h2).1 r' hl₂
          exact hle

/-- Witness for `matcher_priority_order`: with a priority-10 and a
priority-20 rule both matching, the priority-10 rule is returned. -/
theorem matcher_priority_order_witness :
    ∃ r, regexPhase roAll (some "X") none [ruleP10, ruleP20] = some r ∧
      matchMerchant roAll (some "X") none [ruleP10, ruleP20] = some r ∧
      ruleMatches roAll (some "X") none r ∧
      ∀ r' ∈ [ruleP10, ruleP20], ruleMatches roAll (some "X") none r' →
        r.priority < r'.priority ∨
          (r.priority = r'.priority ∧ r'.createdAt ≤ r.createdAt) :=
  matcher_priority_order.2 roAll (some "X") none [ruleP10, ruleP20] (by decide)
    ruleP10 ruleP20 (by decide) (by decide) (by decide) (by decide)
    (by decide) (by decide)

/-- **C9** (confirmed): a rule whose pattern is an invalid regex (the
oracle reports `re.error` on every text) is skipped — the `except re.error`
handler turns it into a continue, so the regex phase over a list containing
the invalid rule equals the phase over the list without it, and any match
found among the valid rules is still returned by `match_merchant`. -/
theorem matcher_invalid_rule_skipped (ro : RegexFn) (m d : Option String)
    (l₁ l₂ : List MRule) (bad : MRule)
    (hbad : ∀ t, ro bad.patternRegex t = .invalid) :
    regexPhase ro m d (l₁ ++ bad :: l₂) = regexPhase ro m d (l₁ ++ l₂) ∧
    (∀ r, regexPhase ro m d (l₁ ++ l₂) = some r →
      matchMerchant ro m d (l₁ ++ bad :: l₂) = some r) := by
  have hskip : (ruleRegexAttempt ro m d bad == RegexOutcome.matched) = false := by
    unfold ruleRegexAttempt
    by_cases hp : bad.patternRegex = ""
    · simp [hp]
    · cases hap : bad.appliesTo
      · by_cases hmm : strTruthy m
        · simp [hp, hap, hmm, hbad]
        · simp [hp, hap, hmm]
      · by_cases hdd : strTruthy d
        · simp [hp, hap, hdd, hbad]
        · simp [hp, hap, hdd]
  have hphase : regexPhase ro m d (l₁ ++ bad :: l₂) = regexPhase ro m d (l₁ ++ l₂) := by
    unfold regexPhase
    rw [List.find?_append, List.find?_append,
      List.find?_cons_of_neg _ (by simp [hskip])]
  refine ⟨hphase, fun r hr => ?_⟩
  unfold matchMerchant
  rw [hphase, hr]

/-- Witness for `matcher_invalid_rule_skipped`: the invalid-pattern rule
sits in front, yet the valid rule behind it still matches. -/
theorem matcher_invalid_rule_skipped_witness :
    regexPhase roInv (some "X") none ([] ++ badRegexRule :: [ruleP10])
      = regexPhase roInv (some "X") none ([] ++ [ruleP10]) ∧
    (∀ r, regexPhase roInv (some "X") none ([] ++ [ruleP10]) = some r →
      matchMerchant roInv (some "X") none ([] ++ badRegexRule :: [ruleP10]) = some r) :=
  matcher_invalid_rule_skipped roInv (some "X") none [] [ruleP10] badRegexRule
    (fun _ => rfl)

/-- From `¬ a < b` conclude `b ≤ a` (numerically, on scores). -/
theorem scoreLe_of_not_lt {a b : Score} (h : ¬ scoreLt a b) : scoreLe b a := by
  unfold scoreLt at h
  unfold scoreLe
  omega

/-- Numeric `≤` is reflexive. -/
theorem scoreLe_refl (a : Score) : scoreLe a a := Nat.le_refl _

/-- Numeric `<` implies numeric `≤`. -/
theorem scoreLe_of_lt {a b : Score} (h : scoreLt a b) : scoreLe a b := Nat.le_of_lt h

/-- Numeric `<` on scores is transitive (degenerate zero denominators are
ruled out by the inequalities themselves). -/
theorem scoreLt_trans {a b c : Score} (h₁ : scoreLt a b) (h₂ : scoreLt b c) :
    scoreLt a c := by
  unfold scoreLt at *
  have had : 0 < a.den := by
    rcases Nat.eq_zero_or_pos a.den with hz | hp
    · rw [hz, Nat.mul_zero] at h₁
      exact absurd h₁ (Nat.not_lt_zero _)
    · exact hp
  rcases Nat.eq_zero_or_pos c.den with hz | hp
  · rw [hz, Nat.mul_zero] at h₂
    rw [hz, Nat.mul_zero]
    have hcn : 0 < c.num := by
      rcases Nat.eq_zero_or_pos c.num with h0 | h0
      · rw [h0, Nat.zero_mul] at h₂
        exact absurd h₂ (Nat.lt_irrefl 0)
      · exact h0
    exact Nat.mul_pos hcn had
  · have s1 : a.num * b.den * c.den < b.num * a.den * c.den :=
      mul_lt_mul_of_pos_right h₁ hp
    have s2 : b.num * c.den * a.den < c.num * b.den * a.den :=
      mul_lt_mul_of_pos_right h₂ had
    have key : a.num * c.den * b.den < c.num * a.den * b.den := by
      calc a.num * c.den * b.den = a.num * b.den * c.den := by ring
        _ < b.num * a.den * c.den := s1
        _ = b.num * c.den * a.den := by ring
        _ < c.num * b.den * a.den := s2
        _ = c.num * a.den * b.den := by ring
    exact lt_of_mul_lt_mul_right key (Nat.zero_le _)

/-- `a ≤ b < c → a < c` on scores (for a left operand with positive
denominator, as every score the loop handles has). -/
theorem scoreLt_of_le_of_lt {a b c : Score} (ha : 0 < a.den)
    (h₁ : scoreLe a b) (h₂ : scoreLt b c) : scoreLt a c := by
  unfold scoreLe at h₁
  unfold scoreLt at *
  rcases Nat.eq_zero_or_pos c.den with hz | hp
  · rw [hz, Nat.mul_zero] at h₂
    rw [hz, Nat.mul_zero]
    have hcn : 0 < c.num := by
      rcases Nat.eq_zero_or_pos c.num with h0 | h0
      · rw [h0, Nat.zero_mul] at h₂
        exact absurd h₂ (Nat.lt_irrefl 0)
      · exact h0
    exact Nat.mul_pos hcn ha
  · have s1 : a.num * b.den * c.den ≤ b.num * a.den * c.den :=
      Nat.mul_le_mul_right _ h₁
    have s2 : b.num * c.den * a.den < c.num * b.den * a.den :=
      mul_lt_mul_of_pos_right h₂ ha
    have key : a.num * c.den * b.den < c.num * a.den * b.den := by
      calc a.num * c.den * b.den = a.num * b.den * c.den := by ring
        _ ≤ b.num * a.den * c.den := s1
        _ = b.num * c.den * a.den := by ring
        _ < c.num * b.den * a.den := s2
        _ = c.num * a.den * b.den := by ring
    exact lt_of_mul_lt_mul_right key (Nat.zero_le _)

/-- The sequence ratio always has a positive denominator. -/
theorem seqSim_den_pos (a b : String) : 0 < (seqSim a b).den := by
  unfold seqSim
  split
  · exact Nat.one_pos
  · simp only
    omega

/-- The word overlap of a non-empty pattern word set has a positive
denominator (the union is at least the pattern's deduplicated words). -/
theorem wordOverlap_den_pos {pw mw : List String} (hpw : pw ≠ []) :
    0 < (wordOverlap pw mw).den := by
  unfold wordOverlap
  simp only
  have hd : pw.dedup ≠ [] := by
    simpa [List.dedup_eq_nil] using hpw
  have h1 : 0 < pw.dedup.length := List.length_pos.mpr hd
  rw [List.length_append]
  omega

/-- `scoreMul` keeps positivity of the denominators. -/
theorem scoreMul_den_pos {a b : Score} (h₁ : 0 < a.den) (h₂ : 0 < b.den) :
    0 < (scoreMul a b).den := Nat.mul_pos h₁ h₂

/-- `scoreMax` keeps positivity of the denominators. -/
theorem scoreMax_den_pos {a b : Score} (h₁ : 0 < a.den) (h₂ : 0 < b.den) :
    0 < (scoreMax a b).den := by
  unfold scoreMax
  split <;> assumption

/-- Every score `_fuzzy_match_merchant` assigns has a positive
denominator. -/
theorem fuzzyScore_den_pos {mu : String} {r : MRule} {s : Score}
    (h : fuzzyScore mu r = some s) : 0 < s.den := by
  unfold fuzzyScore at h
  split at h
  · exact Option.noConfusion h
  · split at h
    · exact Option.noConfusion h
    · dsimp only at h
      split at h
      · exact Option.noConfusion h
      · obtain rfl : _ = s := by injection h
        split
        · next hcond =>
          exact scoreMax_den_pos (seqSim_den_pos _ _)
            (scoreMul_den_pos (wordOverlap_den_pos hcond.1) (by decide))
        · exact seqSim_den_pos _ _

/-- A rule given a fuzzy score is merchant-scoped (the loop skips every
other rule). -/
theorem fuzzyScore_merchant_scope {mu : String} {r : MRule} {s : Score}
    (h : fuzzyScore mu r = some s) : r.appliesTo = .merchant := by
  unfold fuzzyScore at h
  by_cases hap : r.appliesTo = .merchant
  · exact hap
  · simp [hap] at h

/-- Characterization of the `_fuzzy_match_merchant` accumulator loop: a
returned rule either is the incoming accumulator (no candidate beat the
running score), or splits the list — its score strictly beats the threshold
and everything before it, and at least ties everything after it. -/
theorem fuzzyLoop_spec (mu : String) :
    ∀ (rs : List MRule) (b : Score) (acc : Option MRule) (r : MRule),
      fuzzyLoop mu rs b acc = some r →
      (acc = some r ∧ ∀ r' ∈ rs, ∀ s', fuzzyScore mu r' = some s' → scoreLe s' b) ∨
      (∃ l₁ l₂ s, rs = l₁ ++ r :: l₂ ∧ fuzzyScore mu r = some s ∧ scoreLt b s ∧
        (∀ r' ∈ l₁, ∀ s', fuzzyScore mu r' = some s' → scoreLt s' s) ∧
        (∀ r' ∈ l₂, ∀ s', fuzzyScore mu r' = some s' → scoreLe s' s)) := by
  intro rs
  induction rs with
  | nil =>
    intro b acc r h
    left
    exact ⟨h, by simp⟩
  | cons x xs ih =>
    intro b acc r h
    unfold fuzzyLoop at h
    cases hx : fuzzyScore mu x with
    | none =>
      simp only [hx] at h
      rcases ih b acc r h with ⟨hacc, hall⟩ | ⟨l₁, l₂, s, hsp, hsc, hbs, hlt, hle⟩
      · left
        refine ⟨hacc, ?_⟩
        intro r' hr' s' hs'
        rcases List.mem_cons.mp hr' with rfl | hmem
        · rw [hx] at hs'; exact Option.noConfusion hs'
        · exact hall r' hmem s' hs'
      · right
        refine ⟨x :: l₁, l₂, s, by simp [hsp], hsc, hbs, ?_, hle⟩
        intro r' hr' s' hs'
        rcases List.mem_cons.mp hr' with rfl | hmem
        · rw [hx] at hs'; exact Option.noConfusion hs'
        · exact hlt r' hmem s' hs'
    | some s₁ =>
      simp only [hx] at h
      by_cases hb : scoreLt b s₁
      · rw [if_pos hb] at h
        rcases ih s₁ (some x) r h with ⟨hacc, hall⟩ | ⟨l₁, l₂, s, hsp, hsc, hbs, hlt, hle⟩
        · obtain rfl : x = r := by injection hacc
          right
          exact ⟨[], xs, s₁, rfl, hx, hb, by simp, hall⟩
        · right
          refine ⟨x :: l₁, l₂, s, by simp [hsp], hsc, scoreLt_trans hb hbs, ?_, hle⟩
          intro r' hr' s' hs'
          rcases List.mem_cons.mp hr' with rfl | hmem
          · rw [hx] at hs'
            obtain rfl : s₁ = s' := by injection hs'
            exact hbs
          · exact hlt r' hmem s' hs'
      · rw [if_neg hb] at h
        rcases ih b acc r h with ⟨hacc, hall⟩ | ⟨l₁, l₂, s, hsp, hsc, hbs, hlt, hle⟩
        · left
          refine ⟨hacc, ?_⟩
          intro r' hr' s' hs'
          rcases List.mem_cons.mp hr' with rfl | hmem
          · rw [hx] at hs'
            obtain rfl : s₁ = s' := by injection hs'
            exact scoreLe_of_not_lt hb
          · exact hall r' hmem s' hs'
        · right
          refine ⟨x :: l₁, l₂, s, by simp [hsp], hsc, hbs, ?_, hle⟩
          intro r' hr' s' hs'
          rcases List.mem_cons.mp hr' with rfl | hmem
          · rw [hx] at hs'
            obtain rfl : s₁ = s' := by injection hs'
            exact scoreLt_of_le_of_lt (fuzzyScore_den_pos hx) (scoreLe_of_not_lt hb) hbs
          · exact hlt r' hmem s' hs'

set_option maxRecDepth 8000 in
/-- **C5** (confirmed): the fuzzy fallback considers only merchant-scoped
rules, scores each by sequence similarity to the pattern's cleaned literal
tokens boosted by word overlap (`fuzzyScore`), and accepts only the best
candidate strictly above the fixed `0.75` threshold, breaking score ties by
the lower priority number (list order); concretely, a merchant at
similarity `0.80` matches and one at `0.70` does not. -/
theorem fuzzy_fallback_threshold_and_best :
    (∀ (merchantName : String) (rs : List MRule) (r : MRule),
      List.Sorted ruleLe rs →
      fuzzyMatchMerchant merchantName rs = some r →
      r.appliesTo = .merchant ∧
      ∃ s, fuzzyScore (merchantUpperOf merchantName) r = some s ∧ scoreLt ⟨3, 4⟩ s ∧
        (∀ r' ∈ rs, ∀ s', fuzzyScore (merchantUpperOf merchantName) r' = some s' →
          scoreLe s' s) ∧
        (∀ r' ∈ rs, ∀ s', fuzzyScore (merchantUpperOf merchantName) r' = some s' →
          scoreEquiv s' s → r.priority ≤ r'.priority)) ∧
    fuzzyScore (merchantUpperOf "ABCD") rule80 = some ⟨8, 10⟩ ∧
    scoreEquiv ⟨8, 10⟩ ⟨4, 5⟩ ∧
    fuzzyMatchMerchant "ABCD" [rule80] = some rule80 ∧
    fuzzyScore (merchantUpperOf "ABCDEFG") rule70 = some ⟨14, 20⟩ ∧
    scoreEquiv ⟨14, 20⟩ ⟨7, 10⟩ ∧
    fuzzyMatchMerchant "ABCDEFG" [rule70] = none := by
  refine ⟨?_, by decide, by decide, by decide, by decide, by decide, by decide⟩
  intro mn rs r hs h
  unfold fuzzyMatchMerchant at h
  rcases fuzzyLoop_spec (merchantUpperOf mn) rs ⟨3, 4⟩ none r h with
    ⟨hacc, _⟩ | ⟨l₁, l₂, s, hsp, hsc, hbs, hlt, hle⟩
  · exact Option.noConfusion hacc
  · refine ⟨fuzzyScore_merchant_scope hsc, s, hsc, hbs, ?_, ?_⟩
    · intro r' hr' s' hs'
      subst hsp
      rcases List.mem_append.mp hr' with hL | hR
      · exact scoreLe_of_lt (hlt r' hL s' hs')
      · rcases List.mem_cons.mp hR with rfl | hl₂
        · rw [hsc] at hs'
          obtain rfl : s = s' := by injection hs'
          exact scoreLe_refl _
        · exact hle r' hl₂ s' hs'
    · intro r' hr' s' hs' heq
      subst hsp
      rcases List.mem_append.mp hr' with hL | hR
      · have hcon := hlt r' hL s' hs'
        unfold scoreLt at hcon
        unfold scoreEquiv at heq
        omega
      · rcases List.mem_cons.mp hR with rfl | hl₂
        · exact le_refl _
        · have hLe : ruleLe r r' :=
            ((List.pairwise_cons.mp (List.pairwise_append.mp hs).2.1).1) r' hl₂
          rcases hLe with hlt' | ⟨heq', _⟩
          · exact le_of_lt hlt'
          · exact le_of_eq heq'

set_option maxRecDepth 8000 in
/-- Witness for `fuzzy_fallback_threshold_and_best`: the general part
applied to the concrete `0.80`-similarity configuration. -/
theorem fuzzy_fallback_threshold_and_best_witness :
    rule80.appliesTo = .merchant ∧
    ∃ s, fuzzyScore (merchantUpperOf "ABCD") rule80 = some s ∧ scoreLt ⟨3, 4⟩ s ∧
      (∀ r' ∈ [rule80], ∀ s', fuzzyScore (merchantUpperOf "ABCD") r' = some s' →
        scoreLe s' s) ∧
      (∀ r' ∈ [rule80], ∀ s', fuzzyScore (merchantUpperOf "ABCD") r' = some s' →
        scoreEquiv s' s → rule80.priority ≤ r'.priority) :=
  fuzzy_fallback_threshold_and_best.1 "ABCD" [rule80] rule80 (by decide) (by decide)

/-- The loader only ever adds fingerprints: a successful loop run's final
state contains every fingerprint of the initial state. -/
theorem loadRows_mono (env : FP → WriteOutcome)
    (categorize : StagingRow → String × String × Option String) :
    ∀ (rows : List StagingRow) (st : LoadState) (n m : Nat) (st' : LoadState),
      loadRows env categorize rows st n = .ok (m, st') →
      ∀ fp ∈ st.fps, fp ∈ st'.fps := by
  intro rows
  induction rows with
  | nil =>
    intro st n m st' h fp hfp
    unfold loadRows at h
    cases h
    exact hfp
  | cons s rest ih =>
    intro st n m st' h fp hfp
    unfold loadRows at h
    dsimp only at h
    by_cases hmem : mkFP s (categorize s).1 ∈ st.fps
    · rw [if_pos hmem] at h
      exact ih _ _ _ _ h fp hfp
    · rw [if_neg hmem] at h
      cases henv : env (mkFP s (categorize s).1) <;> simp only [henv] at h
      · exact ih _ _ _ _ h fp (List.mem_cons_of_mem _ hfp)
      · exact ih _ _ _ _ h fp hfp
      · exact Except.noConfusion h

/-- Re-running the loader loop from a successful run's final state inserts
nothing: every row is skipped (its fingerprint is already present, or its
insert hits the same duplicate outcome) and the state is unchanged. -/
theorem loadRows_rerun (env : FP → WriteOutcome)
    (categorize : StagingRow → String × String × Option String) :
    ∀ (rows : List StagingRow) (st : LoadState) (n m : Nat) (st' : LoadState),
      loadRows env categorize rows st n = .ok (m, st') →
      ∀ k, loadRows env categorize rows st' k = .ok (k, st') := by
  intro rows
  induction rows with
  | nil =>
    intro st n m st' h k
    unfold loadRows at h
    cases h
    rfl
  | cons s rest ih =>
    intro st n m st' h k
    unfold loadRows at h
    dsimp only at h
    unfold loadRows
    dsimp only
    by_cases hmem : mkFP s (categorize s).1 ∈ st.fps
    · rw [if_pos hmem] at h
      have hm : mkFP s (categorize s).1 ∈ st'.fps :=
        loadRows_mono env categorize rest st n m st' h _ hmem
      rw [if_pos hm]
      exact ih _ _ _ _ h k
    · rw [if_neg hmem] at h
      cases henv : env (mkFP s (categorize s).1) <;> simp only [henv] at h
      · have hm : mkFP s (categorize s).1 ∈ st'.fps :=
          loadRows_mono env categorize rest _ _ _ _ h _ (List.mem_cons_self _ _)
        rw [if_pos hm]
        exact ih _ _ _ _ h k
      · by_cases hm : mkFP s (categorize s).1 ∈ st'.fps
        · rw [if_pos hm]
          exact ih _ _ _ _ h k
        · rw [if_neg hm]
          simp only [henv]
          exact ih _ _ _ _ h k
      · exact Except.noConfusion h

/-- A successful loop run's count is exactly the number of facts added to
the store. -/
theorem loadRows_count (env : FP → WriteOutcome)
    (categorize : StagingRow → String × String × Option String) :
    ∀ (rows : List StagingRow) (st : LoadState) (n m : Nat) (st' : LoadState),
      loadRows env categorize rows st n = .ok (m, st') →
      st'.fps.length + n = st.fps.length + m := by
  intro rows
  induction rows with
  | nil =>
    intro st n m st' h
    unfold loadRows at h
    cases h
    rfl
  | cons s rest ih =>
    intro st n m st' h
    unfold loadRows at h
    dsimp only at h
    by_cases hmem : mkFP s (categorize s).1 ∈ st.fps
    · rw [if_pos hmem] at h
      exact ih _ _ _ _ h
    · rw [if_neg hmem] at h
      cases henv : env (mkFP s (categorize s).1) <;> simp only [henv] at h
      · have := ih _ _ _ _ h
        simp only [List.length_cons] at this
        omega
      · exact ih _ _ _ _ h
      · exact Except.noConfusion h

/-- **C1** (confirmed): after `load_staging_for_user` completes
successfully, re-running it on the same unchanged staging rows, rule set
and extraction oracles inserts zero additional facts: each row's
fingerprint is recomputed identically and found already present — or its
insert hits the same duplicate unique-constraint outcome, treated as a
skip — so the result is `0` with the fact store unchanged. -/
theorem load_staging_idempotent_on_rerun
    (ro : RegexFn) (exM : String → Option String) (nM : String → String)
    (kw : String → String) (rules : List MRule) (env : FP → WriteOutcome)
    (staging : List StagingRow) (userId : Nat) (st : LoadState)
    (n : Nat) (st' : LoadState)
    (h : loadStagingForUser ro exM nM kw rules env staging userId st = .ok (n, st')) :
    loadStagingForUser ro exM nM kw rules env staging userId st' = .ok (0, st') := by
  unfold loadStagingForUser at h ⊢
  exact loadRows_rerun env _ _ st 0 n st' h 0

/-- Witness for `load_staging_idempotent_on_rerun`: loading one staged row
inserts one fact; the immediate re-run inserts zero. -/
theorem load_staging_idempotent_on_rerun_witness :
    loadStagingForUser roNone extractNone normalizeId inferShopping []
      (fun _ => .ok) [rowCafe] 1 st0 = .ok (1, stCafe) ∧
    loadStagingForUser roNone extractNone normalizeId inferShopping []
      (fun _ => .ok) [rowCafe] 1 stCafe = .ok (0, stCafe) :=
  ⟨by decide,
   load_staging_idempotent_on_rerun roNone extractNone normalizeId inferShopping []
     (fun _ => .ok) [rowCafe] 1 st0 1 stCafe (by decide)⟩

/-- **C2** counterexample: a batch of two rows where the first row's write
fails with a non-duplicate error — the loop re-raises, the whole batch is
rolled back and surfaced as an error (no count), and the second row, whose
write would have succeeded, is never inserted.  This falsifies "no
single-row write failure, of any kind, aborts the whole batch". -/
theorem load_staging_other_error_aborts_batch :
    loadStagingForUser roNone extractNone normalizeId inferShopping []
      (fun fp => if fp = mkFP rowCafe "CAFE" then .otherError else .ok)
      [rowCafe, rowTea] 1 st0 = .error .rowError := by
  decide

/-- **C2** (amended): a row whose write fails with a duplicate/unique-
constraint violation is fully isolated — the batch behaves exactly as if
the row were absent: only its savepoint rolls back and processing
continues — and a successful batch reports exactly the number of facts
inserted; row failures that are not duplicate violations, however, are
re-raised and abort the whole batch. -/
theorem loader_dup_isolated_and_counts (env : FP → WriteOutcome)
    (categorize : StagingRow → String × String × Option String)
    (l₁ l₂ : List StagingRow) (r : StagingRow) (st : LoadState) (n : Nat)
    (hdup : env (mkFP r (categorize r).1) = .dupViolation) :
    loadRows env categorize (l₁ ++ r :: l₂) st n
      = loadRows env categorize (l₁ ++ l₂) st n ∧
    (∀ m st', loadRows env categorize (l₁ ++ r :: l₂) st n = .ok (m, st') →
      st'.fps.length + n = st.fps.length + m) := by
  constructor
  · induction l₁ generalizing st n with
    | nil =>
      simp only [List.nil_append, loadRows]
      by_cases hmem : mkFP r (categorize r).1 ∈ st.fps
      · rw [if_pos hmem]
      · rw [if_neg hmem]
        simp only [hdup]
    | cons x xs ih =>
      simp only [List.cons_append, loadRows]
      by_cases hmem : mkFP x (categorize x).1 ∈ st.fps
      · rw [if_pos hmem, if_pos hmem]
        exact ih _ _
      · rw [if_neg hmem, if_neg hmem]
        cases henv : env (mkFP x (categorize x).1) <;> simp only [henv]
        · exact ih _ _
        · exact ih _ _
  · intro m st' h
    exact loadRows_count env categorize (l₁ ++ r :: l₂) st n m st' h

/-- Witness for `loader_dup_isolated_and_counts`: a batch whose second row
hits a duplicate violation equals the batch without that row, and the
successful run counts one inserted fact. -/
theorem loader_dup_isolated_and_counts_witness :
    (loadRows (fun fp => if fp = mkFP rowTea "CHAI" then .dupViolation else .ok)
        (fun s => extractAndCategorize roNone extractNone normalizeId inferShopping []
          (pyOr s.descriptionRaw "") s.merchantRaw s.direction)
        ([rowCafe] ++ rowTea :: []) st0 0
      = loadRows (fun fp => if fp = mkFP rowTea "CHAI" then .dupViolation else .ok)
        (fun s => extractAndCategorize roNone extractNone normalizeId inferShopping []
          (pyOr s.descriptionRaw "") s.merchantRaw s.direction)
        ([rowCafe] ++ []) st0 0) ∧
    (∀ m st', loadRows (fun fp => if fp = mkFP rowTea "CHAI" then .dupViolation else .ok)
        (fun s => extractAndCategorize roNone extractNone normalizeId inferShopping []
          (pyOr s.descriptionRaw "") s.merchantRaw s.direction)
        ([rowCafe] ++ rowTea :: []) st0 0 = .ok (m, st') →
      st'.fps.length + 0 = st0.fps.length + m) :=
  loader_dup_isolated_and_counts _ _ [rowCafe] [] rowTea st0 0 (by decide)

/-- Rules coming out of `upsert_rule` are either untouched rows of the
incoming table or carry exactly the written (category, subcategory) pair
(both on insert and on conflict-update). -/
theorem upsertRule_mem (table : List MRule) (ap : AppliesTo) (pat : String)
    (cc sc : Option String) (prio : Int) (createdBy : Nat) (tid : Option Nat)
    (source : String) (newId : Nat) (now : Int) :
    ∀ r ∈ (upsertRule table ap pat cc sc prio createdBy tid source newId now).1,
      r ∈ table ∨ (r.categoryCode = cc ∧ r.subcategoryCode = sc) := by
  intro r hr
  unfold upsertRule at hr
  dsimp only at hr
  cases hfind : table.find? (fun x =>
      sqlNullEq x.tenantId tid && x.appliesTo == ap && x.patternHash == patternHash pat) with
  | some existing =>
    simp only [hfind] at hr
    obtain ⟨x, hx, hfx⟩ := List.mem_map.mp hr
    by_cases hid : x.ruleId == existing.ruleId
    · rw [if_pos hid] at hfx
      subst hfx
      exact Or.inr ⟨rfl, rfl⟩
    · rw [if_neg hid] at hfx
      subst hfx
      exact Or.inl hx
  | none =>
    simp only [hfind] at hr
    rcases List.mem_append.mp hr with h | h
    · exact Or.inl h
    · rcases List.mem_singleton.mp h with rfl
      exact Or.inr ⟨rfl, rfl⟩

/-- The subcategory `learn_from_edit` stores is consistent: whenever it is
some `code`, an active `dim_subcategory` row with that code and exactly the
written category exists in the store. -/
theorem storedSubcatFor_some {store : LearnStore}
    {categoryCode subcategoryCode : Option String}
    (hcc : strTruthy categoryCode = true) {code : String}
    (h : storedSubcatFor store categoryCode subcategoryCode = some code) :
    ∃ srow ∈ store.subcats, srow.code = code ∧
      some srow.categoryCode = categoryCode ∧ srow.active = true := by
  unfold storedSubcatFor at h
  dsimp only at h
  by_cases ht : strTruthy subcategoryCode
  · rw [if_pos ht] at h
    cases hfind : store.subcats.find? (fun s =>
        s.code == subcategoryCode.getD "" &&
        s.categoryCode == categoryCode.getD "" && s.active) with
    | none =>
      rw [hfind] at h
      simp at h
    | some srow =>
      rw [hfind] at h
      simp only [Option.isSome_some, if_true] at h
      have hp := List.find?_some hfind
      simp only [Bool.and_eq_true, beq_iff_eq] at hp
      obtain ⟨⟨hc1, hc2⟩, hc3⟩ := hp
      refine ⟨srow, List.mem_of_find?_eq_some hfind, ?_, ?_, hc3⟩
      · rw [hc1, h]
        rfl
      · cases categoryCode with
        | none => simp [strTruthy] at hcc
        | some c =>
          rw [hc2]
          rfl
  · rw [if_neg ht] at h
    simp at h

/-- **C8** (amended): the learning path enforces the category invariant at
write time — after `learn_from_edit`, every rule of the store either was
already present or carries the written category together with a
subcategory that, if set, is an active `dim_subcategory` row of exactly
that category (an inconsistent subcategory is stored as null).  The Loader,
by contrast, copies a matched rule's (category, subcategory) pair into the
Enrichment without checking the subcategory's parent (see the
counterexample), so an Enrichment is only as consistent as the rule that
produced it. -/
theorem learning_rules_subcategory_consistent
    (store : LearnStore) (countToday : Except StoreErr Nat) (userId : Nat)
    (merchantName description categoryCode subcategoryCode : Option String)
    (tenantId : Option Nat) (newRuleId : Nat) (now : Int) :
    ∀ r ∈ (learnFromEdit store countToday userId merchantName description
        categoryCode subcategoryCode tenantId newRuleId now).2.rules,
      r ∈ store.rules ∨
      (r.categoryCode = categoryCode ∧
        ∀ code, r.subcategoryCode = some code →
          ∃ srow ∈ store.subcats, srow.code = code ∧
            some srow.categoryCode = categoryCode ∧ srow.active = true) := by
  intro r hr
  unfold learnFromEdit at hr
  by_cases h1 : strTruthy categoryCode
  · rw [if_neg (fun hn => hn h1)] at hr
    by_cases h2 : checkRateLimit countToday
    · rw [if_neg (fun hn => hn h2)] at hr
      cases hcat : store.cats.find? (fun c => c.code == categoryCode.getD "" && c.active) with
      | none =>
        simp only [hcat] at hr
        exact Or.inl hr
      | some dc =>
        simp only [hcat] at hr
        by_cases h3 : strTruthy merchantName
        · rw [if_pos h3] at hr
          cases hp : merchantPattern (merchantName.getD "") with
          | some p =>
            simp only [hp] at hr
            rcases upsertRule_mem _ _ _ _ _ _ _ _ _ _ _ r hr with hin | ⟨hcatEq, hsubEq⟩
            · exact Or.inl hin
            · refine Or.inr ⟨hcatEq, fun code hcode => ?_⟩
              rw [hsubEq] at hcode
              exact storedSubcatFor_some h1 hcode
          | none =>
            simp only [hp] at hr
            by_cases h4 : strTruthy description
            · rw [if_pos h4] at hr
              cases hq : descPattern (description.getD "") with
              | some q =>
                simp only [hq] at hr
                rcases upsertRule_mem _ _ _ _ _ _ _ _ _ _ _ r hr with hin | ⟨hcatEq, hsubEq⟩
                · exact Or.inl hin
                · refine Or.inr ⟨hcatEq, fun code hcode => ?_⟩
                  rw [hsubEq] at hcode
                  exact storedSubcatFor_some h1 hcode
              | none =>
                simp only [hq] at hr
                exact Or.inl hr
            · rw [if_neg h4] at hr
              exact Or.inl hr
        · rw [if_neg h3] at hr
          by_cases h4 : strTruthy description
          · rw [if_pos h4] at hr
            cases hq : descPattern (description.getD "") with
            | some q =>
              simp only [hq] at hr
              rcases upsertRule_mem _ _ _ _ _ _ _ _ _ _ _ r hr with hin | ⟨hcatEq, hsubEq⟩
              · exact Or.inl hin
              · refine Or.inr ⟨hcatEq, fun code hcode => ?_⟩
                rw [hsubEq] at hcode
                exact storedSubcatFor_some h1 hcode
            | none =>
              simp only [hq] at hr
              exact Or.inl hr
          · rw [if_neg h4] at hr
            exact Or.inl hr
    · rw [if_pos (fun hn => absurd hn h2)] at hr
      exact Or.inl hr
  · rw [if_pos (fun hn => absurd hn h1)] at hr
    exact Or.inl hr

/-- Witness for `learning_rules_subcategory_consistent`: the rule learned
from the `"Shobha Ent" → shopping/online_shopping` correction is consistent
with the reference dimension. -/
theorem learning_rules_subcategory_consistent_witness :
    learnedShobhaRule ∈ learnStoreSample.rules ∨
    (learnedShobhaRule.categoryCode = some "shopping" ∧
      ∀ code, learnedShobhaRule.subcategoryCode = some code →
        ∃ srow ∈ learnStoreSample.subcats, srow.code = code ∧
          some srow.categoryCode = some "shopping" ∧ srow.active = true) :=
  learning_rules_subcategory_consistent learnStoreSample (.ok 0) 7
    (some "Shobha Ent") none (some "shopping") (some "online_shopping") none 42 5
    learnedShobhaRule (by decide)

/-- **C8** counterexample: a rule carrying `category = shopping` with
`subcategory = fuel_petrol` — whose parent category in the reference
dimension is `transport` — regex-matches a staged row; the Loader copies
the pair into the written Enrichment unchanged, producing an Enrichment
whose subcategory belongs to a different category than its own. -/
theorem loader_enrichment_subcategory_mismatch :
    loadStagingForUser roAll extractNone normalizeId inferShopping [badRule]
      (fun _ => .ok) [rowShell] 1 st0 = .ok (1, stShell) ∧
    stShell.enriched = [⟨"shopping", some "fuel_petrol", ⟨1, 1⟩, none⟩] ∧
    subcatParent dimsFuel "fuel_petrol" = some "transport" ∧
    ("transport" : String) ≠ "shopping" := by
  decide

end MonytixMap
